import Mathlib

/-!
Verification development for the Banshee desktop-assistant backend
(`src-tauri/src`): a shallow embedding, in Lean, of the Codex proto
bridge (`codex_bridge.rs`), the session registry (`lib.rs`) and the
checkpoint subsystem (`checkpoint.rs`), together with proofs of the
behavioural properties stated in the specification.

Modelling conventions:
* `HashMap<String, V>` tables are embedded as functions `String → Option V`
  (`SMap V`), with pointwise `insert` / `remove`.
* Filesystem paths (`Path` / `PathBuf`) are embedded as `FPath`: an
  absolute-flag plus a list of components; `join` / `strip_prefix`
  follow the Rust `std::path` semantics used by the source.
* `Uuid::new_v4()` is embedded as an injective generator indexed by a
  counter that is threaded through the operations that draw fresh ids.
* Machine integers: the token counters are Rust `u64` manipulated only
  with `saturating_sub` / `min`, so they embed directly as `Nat`; the
  reasoning sequence counter is a `u32` incremented with `+= 1`, so its
  increment is taken modulo `2 ^ 32`.
* `f64` percentages are embedded as `ℚ`; the claims evaluated here only
  involve exactly-representable values (quotients with power-of-two
  denominators scaled by 100), where `f64` arithmetic is exact.
* Fallible operations return `Except String`, mirroring
  `Result<_, String>`; an `Except.error` result produces no successor
  state, matching the source paths that return early without mutating.
-/

namespace Banshee

/-- Embedding of `HashMap<String, V>`: a finite-support map modelled as a
function to `Option`. -/
def SMap (α : Type) : Type := String → Option α

namespace SMap

/-- The empty map (`HashMap::new`). -/
def empty {α : Type} : SMap α := fun _ => none

/-- `HashMap::insert`. -/
def insert {α : Type} (m : SMap α) (k : String) (v : α) : SMap α :=
  fun q => if q = k then some v else m q

/-- `HashMap::remove` (the removed value, if any, is `m k`). -/
def remove {α : Type} (m : SMap α) (k : String) : SMap α :=
  fun q => if q = k then none else m q

@[simp] theorem insert_same {α : Type} (m : SMap α) (k : String) (v : α) :
    m.insert k v k = some v := by
  simp [insert]

@[simp] theorem remove_same {α : Type} (m : SMap α) (k : String) :
    m.remove k k = none := by
  simp [remove]

theorem insert_ne {α : Type} (m : SMap α) {k q : String} (v : α) (h : q ≠ k) :
    m.insert k v q = m q := by
  simp [insert, h]

theorem remove_ne {α : Type} (m : SMap α) {k q : String} (h : q ≠ k) :
    m.remove k q = m q := by
  simp [remove, h]

end SMap

/-- Embedding of `std::path::PathBuf`: an absolute-path flag plus the list
of path components. -/
structure FPath where
  absolute : Bool
  comps : List String
deriving DecidableEq, Repr

namespace FPath

/-- `PathBuf::join`: an absolute right-hand side replaces the base. -/
def join (p q : FPath) : FPath :=
  if q.absolute then q else ⟨p.absolute, p.comps ++ q.comps⟩

/-- `Path::strip_prefix`: when `base` is a prefix of `p` the remainder is
returned as a relative path. -/
def stripPre (p base : FPath) : Option FPath :=
  if base.absolute = p.absolute ∧ base.comps.isPrefixOf p.comps then
    some ⟨false, p.comps.drop base.comps.length⟩
  else
    none

/-- `Path::file_name`, simplified to the last component. -/
def fileName (p : FPath) : Option String :=
  p.comps.getLast?

/-- `Path::display`, rendering the components separated by `/`. -/
def display (p : FPath) : String :=
  (if p.absolute then "/" else "") ++ String.intercalate "/" p.comps

end FPath

/-- `format_path` (codex_bridge.rs): display the path relative to the
project directory when it lies below it, the full path otherwise. -/
def format_path (path projectDir : FPath) : String :=
  match path.stripPre projectDir with
  | some rel => rel.display
  | none => path.display

/-! ## Codex bridge shared state (codex_bridge.rs) -/

/-- The kind tag of a pending permission (`PermissionKind`). -/
inductive PermissionKind where
  | exec
  | patch
deriving DecidableEq, Repr

/-- A pending permission entry (`PermissionContext`): the originating
submission id and the request kind. -/
structure PermissionContext where
  submission_id : String
  kind : PermissionKind
deriving DecidableEq, Repr

/-- A per-submission reasoning accumulation entry (`ReasoningEntry`):
the accumulated text and the `u32` sequence counter. -/
structure ReasoningEntry where
  buffer : String
  sequence : Nat
deriving DecidableEq, Repr

/-- `ReasoningEntry::default()`. -/
def ReasoningEntry.dflt : ReasoningEntry := ⟨"", 0⟩

/-- The modulus of the `u32` sequence counter. -/
def u32Mod : Nat := 4294967296

/-- The mutable tables shared between the bridge and its reader thread
(`SharedState`). -/
structure SharedState where
  session_model : Option String
  reasoning_buffers : SMap ReasoningEntry
  pending_permissions : SMap PermissionContext
  pending_edits : SMap (List String)

/-- A bridge notification emitted on the `codex:stream` channel, restricted
to the fields the verified properties inspect. -/
inductive Notif where
  | editProposed (id file before after : String)
  | permissionRequest (id : String) (tools : List String) (files : List String)
      (reason : Option String) (grantRoot : Option String)
  | editApplied (id : String)
  | editRejected (id : String)
deriving DecidableEq, Repr

/-- A `thinking` notification (reasoning chunk). -/
structure ThinkingNotif where
  notifId : String
  parentId : String
  sequence : Nat
  text : String
  fullText : String
  done : Bool
deriving DecidableEq, Repr

/-! ## Reasoning chunk accumulation (`emit_reasoning_chunk`) -/

/-- `emit_reasoning_chunk` (codex_bridge.rs:529): bump the per-submission
sequence counter (a `u32`, hence the modulus), append the chunk to the
buffer, snapshot it, and drop the entry when the chunk is
completion-flagged.  Returns the successor state and the emitted
`thinking` notification. -/
def emit_reasoning_chunk (shared : SharedState) (id chunk : String) (done : Bool) :
    SharedState × ThinkingNotif :=
  let entry := (shared.reasoning_buffers id).getD ReasoningEntry.dflt
  let seq := (entry.sequence + 1) % u32Mod
  let buf := entry.buffer ++ chunk
  let buffers :=
    if done then shared.reasoning_buffers.remove id
    else shared.reasoning_buffers.insert id ⟨buf, seq⟩
  ({ shared with reasoning_buffers := buffers },
   ⟨id ++ "::" ++ toString seq, id, seq, chunk, buf, done⟩)

/-- Drives `emit_reasoning_chunk` over a list of `(chunk, done)` events for
one submission id, collecting the emitted notifications in order. -/
def runReasoningChunks (shared : SharedState) (id : String) :
    List (String × Bool) → SharedState × List ThinkingNotif
  | [] => (shared, [])
  | (chunk, done) :: rest =>
      let out := emit_reasoning_chunk shared id chunk done
      let next := runReasoningChunks out.1 id rest
      (next.1, out.2 :: next.2)

/-- Left-to-right concatenation of the chunk texts starting from `b`,
matching the order in which the code appends to the buffer. -/
def accumTexts (b : String) : List (String × Bool) → String
  | [] => b
  | c :: rest => accumTexts (b ++ c.1) rest

/-- Concatenation of the chunk texts of a list of chunk events. -/
def concatTexts : List (String × Bool) → String
  | [] => ""
  | c :: rest => c.1 ++ concatTexts rest

/-! ## Patch approval requests and patch application (codex_bridge.rs) -/

/-- `FileChange` (codex protocol): one changed file in a patch approval
request. -/
inductive FileChange where
  | add (content : String)
  | delete (content : String)
  | update (unified_diff : String) (move_path : Option FPath)
deriving DecidableEq, Repr

/-- The `(before, after)` display pair derived from a `FileChange` by
`emit_patch_permission`. -/
def changeBeforeAfter : FileChange → String × String
  | .add content => ("", content)
  | .delete content => (content, "")
  | .update unified_diff _ => ("", unified_diff)

/-- `ApplyPatchApprovalRequestEvent`: the call id, the changed files in
iteration order, the optional reason and the optional grant root. -/
structure ApplyPatchApprovalReq where
  call_id : String
  changes : List (FPath × FileChange)
  reason : Option String
  grant_root : Option FPath

/-- `PatchApplyEndEvent`. -/
structure PatchApplyEndEvent where
  call_id : String
  success : Bool

/-- The per-file loop of `emit_patch_permission` (codex_bridge.rs:671):
for each changed file, draw a fresh edit id (`Uuid::new_v4`, embedded as
`gen` applied to a running counter), remember it, and emit an
`edit:proposed` notification.  Returns the collected edit ids, the
notifications in emission order, and the advanced counter. -/
def patchEditLoop (projectDir : FPath) (gen : Nat → String) :
    List (FPath × FileChange) → Nat → List String × List Notif × Nat
  | [], ctr => ([], [], ctr)
  | (path, change) :: rest, ctr =>
      let file := format_path path projectDir
      let ba := changeBeforeAfter change
      let editId := "edit-" ++ gen ctr
      let next := patchEditLoop projectDir gen rest (ctr + 1)
      (editId :: next.1,
       Notif.editProposed editId file ba.1 ba.2 :: next.2.1,
       next.2.2)

/-- `emit_patch_permission` (codex_bridge.rs:651): register the pending
permission, emit one `edit:proposed` per changed file, remember the edit
ids under the call id, then emit the single `permission:request`
notification.  Returns the successor state, the notifications in emission
order, and the advanced uuid counter. -/
def emit_patch_permission (shared : SharedState) (projectDir : FPath)
    (submissionId : String) (req : ApplyPatchApprovalReq)
    (gen : Nat → String) (ctr : Nat) : SharedState × List Notif × Nat :=
  let permissionId := "patch:" ++ submissionId ++ ":" ++ req.call_id
  let pending := shared.pending_permissions.insert permissionId
    ⟨submissionId, .patch⟩
  let loop := patchEditLoop projectDir gen req.changes ctr
  let edits := shared.pending_edits.insert req.call_id loop.1
  let affected := req.changes.map (fun pc => format_path pc.1 projectDir)
  let permNotif := Notif.permissionRequest permissionId ["write"] affected
    req.reason (req.grant_root.map (fun p => format_path p projectDir))
  ({ shared with pending_permissions := pending, pending_edits := edits },
   loop.2.1 ++ [permNotif],
   loop.2.2)

/-- `handle_patch_apply_end` (codex_bridge.rs:721): pop the call id's
remembered edit ids and emit one `edit:applied` (success) or
`edit:rejected` (failure) notification per id. -/
def handle_patch_apply_end (shared : SharedState) (ev : PatchApplyEndEvent) :
    SharedState × List Notif :=
  let ids := (shared.pending_edits ev.call_id).getD []
  ({ shared with pending_edits := shared.pending_edits.remove ev.call_id },
   ids.map (fun editId =>
     if ev.success then Notif.editApplied editId else Notif.editRejected editId))

/-! ## Token telemetry (codex_bridge.rs:743-811) -/

/-- `TokenUsage` (codex protocol): the raw `u64` token counters. -/
structure TokenUsage where
  input_tokens : Nat
  cached_input_tokens : Nat
  output_tokens : Nat
  reasoning_output_tokens : Nat
  total_tokens : Nat
deriving DecidableEq, Repr

/-- The usage info carried by a token-count event. -/
structure TokenCountInfo where
  last_token_usage : TokenUsage
  model_context_window : Option Nat
deriving DecidableEq, Repr

/-- `TokenCountEvent`. -/
structure TokenCountEvent where
  info : Option TokenCountInfo
deriving DecidableEq, Repr

/-- The `telemetry:tokens` payload fields. -/
structure TokenTelemetry where
  tokensIn : Nat
  tokensOut : Nat
  contextWindow : Option Nat
  contextEffective : Option Nat
  contextUsedTokens : Option Nat
  contextRemainingTokens : Option Nat
  contextUsedPct : Option ℚ
  contextRemainingPct : Option ℚ
deriving DecidableEq, Repr

/-- The fixed baseline reservation (`BASELINE_TOKENS`). -/
def BASELINE_TOKENS : Nat := 12000

/-- `compute_context_usage` (codex_bridge.rs:778): derive the effective
window, used/remaining token counts and percentages.  `u64`
`saturating_sub` is `Nat` subtraction; the `f64` percentages are embedded
as `ℚ`. -/
def compute_context_usage (usage : TokenUsage) (context_window : Nat) :
    Option Nat × Option Nat × Option Nat × Option ℚ × Option ℚ :=
  if context_window ≤ BASELINE_TOKENS then
    (some 0, some 0, some 0, none, none)
  else
    let effective_window := context_window - BASELINE_TOKENS
    if effective_window = 0 then
      (some 0, some 0, some 0, none, none)
    else
      let tokens_in_context := usage.total_tokens - usage.reasoning_output_tokens
      let used_tokens := min (tokens_in_context - BASELINE_TOKENS) effective_window
      let remaining_tokens := effective_window - used_tokens
      let remaining_pct : ℚ := ((remaining_tokens : ℚ) / (effective_window : ℚ)) * 100
      let used_pct : ℚ := 100 - remaining_pct
      (some effective_window, some used_tokens, some remaining_tokens,
       some used_pct, some remaining_pct)

/-- `emit_token_stats` (codex_bridge.rs:743): when usage info is present,
emit a telemetry payload with the raw counters and, when a context window
is reported, the derived figures from `compute_context_usage`. -/
def emit_token_stats (data : TokenCountEvent) : Option TokenTelemetry :=
  match data.info with
  | none => none
  | some info =>
      let u := info.last_token_usage
      let derived := (info.model_context_window.map
        (compute_context_usage u)).getD (none, none, none, none, none)
      some
        { tokensIn := u.input_tokens + u.cached_input_tokens
          tokensOut := u.output_tokens + u.reasoning_output_tokens
          contextWindow := info.model_context_window
          contextEffective := derived.1
          contextUsedTokens := derived.2.1
          contextRemainingTokens := derived.2.2.1
          contextUsedPct := derived.2.2.2.1
          contextRemainingPct := derived.2.2.2.2 }

/-! ## Submissions and the outbound line protocol -/

/-- `InputItem` (codex protocol). -/
inductive InputItem where
  | text (text : String)
  | localImage (path : FPath)
deriving DecidableEq, Repr

/-- `AskForApproval` (codex protocol). -/
inductive AskForApproval where
  | onRequest
  | onFailure
  | never
  | unlessTrusted
deriving DecidableEq, Repr

/-- `SandboxPolicy` (codex protocol). -/
inductive SandboxPolicy where
  | dangerFullAccess
  | readOnly
  | workspaceWrite (writable_roots : List FPath)
      (network_access exclude_tmpdir_env_var exclude_slash_tmp : Bool)
deriving DecidableEq, Repr

/-- `ReasoningEffort` (codex protocol). -/
inductive ReasoningEffort where
  | minimal
  | low
  | medium
  | high
deriving DecidableEq, Repr

/-- `ReasoningSummary` (codex protocol); `noSummary` embeds the `None`
variant. -/
inductive ReasoningSummary where
  | auto
  | noSummary
deriving DecidableEq, Repr

/-- `ReviewDecision` (codex protocol). -/
inductive ReviewDecision where
  | approved
  | approvedForSession
  | denied
deriving DecidableEq, Repr

/-- `Op` (codex protocol): the outbound operation of a submission. -/
inductive Op where
  | userTurn (items : List InputItem) (cwd : FPath)
      (approval_policy : AskForApproval) (sandbox_policy : SandboxPolicy)
      (model : String) (effort : Option ReasoningEffort)
      (summary : ReasoningSummary)
  | execApproval (id : String) (decision : ReviewDecision)
  | patchApproval (id : String) (decision : ReviewDecision)
  | interrupt
deriving DecidableEq, Repr

/-- `Submission` (codex protocol): an outbound request with a fresh id. -/
structure Submission where
  id : String
  op : Op
deriving DecidableEq, Repr

/-- JSON escaping of a single character, as performed by the serializer:
quote, backslash and control characters are escaped; everything else is
emitted verbatim. -/
def escChar (c : Char) : String :=
  if c = '"' then "\\\""
  else if c = '\\' then "\\\\"
  else if c = '\n' then "\\n"
  else if c = '\r' then "\\r"
  else if c = '\t' then "\\t"
  else if c.toNat < 32 then
    "\\u00" ++ String.singleton (Nat.digitChar (c.toNat / 16)) ++
      String.singleton (Nat.digitChar (c.toNat % 16))
  else String.singleton c

/-- JSON escaping of a character list. -/
def escString : List Char → String
  | [] => ""
  | c :: cs => escChar c ++ escString cs

/-- A JSON string literal with escaped contents. -/
def jsonStr (s : String) : String :=
  "\"" ++ escString s.toList ++ "\""

/-- Comma-separated concatenation (the JSON array/element separator). -/
def joinComma : List String → String
  | [] => ""
  | [x] => x
  | x :: y :: rest => x ++ "," ++ joinComma (y :: rest)

/-- The predicate that a string contains no raw newline character (the
framed line protocol requires one JSON object per line). -/
def nlFree (s : String) : Prop := '\n' ∉ s.data

instance (s : String) : Decidable (nlFree s) := by
  unfold nlFree
  infer_instance

/-- A JSON boolean literal. -/
def jsonBool (b : Bool) : String :=
  if b then "true" else "false"

/-- Wire value of an `AskForApproval` policy. -/
def approvalJson : AskForApproval → String
  | .onRequest => jsonStr "on-request"
  | .onFailure => jsonStr "on-failure"
  | .never => jsonStr "never"
  | .unlessTrusted => jsonStr "unless-trusted"

/-- Wire value of an optional `ReasoningEffort`. -/
def effortJson : Option ReasoningEffort → String
  | none => "null"
  | some .minimal => jsonStr "minimal"
  | some .low => jsonStr "low"
  | some .medium => jsonStr "medium"
  | some .high => jsonStr "high"

/-- Wire value of a `ReasoningSummary`. -/
def summaryJson : ReasoningSummary → String
  | .auto => jsonStr "auto"
  | .noSummary => jsonStr "none"

/-- Wire value of a `ReviewDecision` (spec section 6: `approved`,
`approved_for_session`, `denied`). -/
def decisionJson : ReviewDecision → String
  | .approved => jsonStr "approved"
  | .approvedForSession => jsonStr "approved_for_session"
  | .denied => jsonStr "denied"

/-- Wire form of an `InputItem`. -/
def itemJson : InputItem → String
  | .text t => "\x7b\"type\":\"text\",\"text\":" ++ jsonStr t ++ "\x7d"
  | .localImage p =>
      "\x7b\"type\":\"local_image\",\"path\":" ++ jsonStr p.display ++ "\x7d"

/-- Wire form of a `SandboxPolicy`. -/
def sandboxJson : SandboxPolicy → String
  | .dangerFullAccess => jsonStr "danger-full-access"
  | .readOnly => jsonStr "read-only"
  | .workspaceWrite roots na et es =>
      "\x7b\"mode\":\"workspace-write\",\"writable_roots\":[" ++
        joinComma (roots.map (fun r => jsonStr r.display)) ++
        "],\"network_access\":" ++ jsonBool na ++
        ",\"exclude_tmpdir_env_var\":" ++ jsonBool et ++
        ",\"exclude_slash_tmp\":" ++ jsonBool es ++ "\x7d"

/-- Wire form of an `Op` variant. -/
def opJson : Op → String
  | .userTurn items cwd ap sp model effort summary =>
      "\x7b\"user_turn\":\x7b\"items\":[" ++
        joinComma (items.map itemJson) ++
        "],\"cwd\":" ++ jsonStr cwd.display ++
        ",\"approval_policy\":" ++ approvalJson ap ++
        ",\"sandbox_policy\":" ++ sandboxJson sp ++
        ",\"model\":" ++ jsonStr model ++
        ",\"effort\":" ++ effortJson effort ++
        ",\"summary\":" ++ summaryJson summary ++ "\x7d\x7d"
  | .execApproval id decision =>
      "\x7b\"exec_approval\":\x7b\"id\":" ++ jsonStr id ++
        ",\"decision\":" ++ decisionJson decision ++ "\x7d\x7d"
  | .patchApproval id decision =>
      "\x7b\"patch_approval\":\x7b\"id\":" ++ jsonStr id ++
        ",\"decision\":" ++ decisionJson decision ++ "\x7d\x7d"
  | .interrupt => jsonStr "interrupt"

/-- Modelled from the spec: `serde_json::to_string(&submission)` — the
derived serialization lives in the external codex protocol crate, not in
this repository, so the wire shape follows spec section 6 (`{"id": ...,
"op": <variant>}` as one compact JSON object per line). -/
def serializeSubmission (s : Submission) : String :=
  "\x7b\"id\":" ++ jsonStr s.id ++ ",\"op\":" ++ opJson s.op ++ "\x7d"

/-- One operation performed on the child's stdin handle. -/
inductive StdinOp where
  | write (bytes : String)
  | flush
deriving DecidableEq, Repr

/-- The bridge's request-side state: whether the stdin handle is held
(`stdin: Option<ChildStdin>`), the project directory, and the shared
tables. -/
structure BridgeState where
  stdinOpen : Bool
  projectDir : FPath
  shared : SharedState

/-- `CodexBridge::write_submission` (codex_bridge.rs:389): serialize the
submission and, if the stdin handle is held, write the payload bytes and
then a single newline byte.  No flush operation is performed on the
handle.  Returns the unchanged state and either the list of stdin
operations in order, or the error string. -/
def write_submission (b : BridgeState) (sub : Submission) :
    BridgeState × Except String (List StdinOp) :=
  let payload := serializeSubmission sub
  if b.stdinOpen then
    (b, .ok [.write payload, .write "\n"])
  else
    (b, .error "Codex stdin unavailable")

/-- `CodexBridge::resolve_permission` (codex_bridge.rs:276): look up and
remove the pending entry (error when absent — the map and the rest of the
state are untouched in that case), map `(allow, scope)` to a decision,
and write the approval submission tagged by the original submission id.
`gen ctr` embeds the fresh `Uuid::new_v4()`. -/
def resolve_permission (b : BridgeState) (gen : Nat → String) (ctr : Nat)
    (request_id : String) (allow : Bool) (scope : String) :
    BridgeState × Except String (List StdinOp) :=
  match b.shared.pending_permissions request_id with
  | none => (b, .error ("Unknown permission id: " ++ request_id))
  | some context =>
      let b1 := { b with shared :=
        { b.shared with pending_permissions :=
            b.shared.pending_permissions.remove request_id } }
      let decision : ReviewDecision :=
        if allow then
          if scope = "session" ∨ scope = "project" then .approvedForSession
          else .approved
        else .denied
      let sub : Submission :=
        match context.kind with
        | .exec => ⟨"approval-" ++ gen ctr, .execApproval context.submission_id decision⟩
        | .patch => ⟨"patch-" ++ gen ctr, .patchApproval context.submission_id decision⟩
      write_submission b1 sub

/-! ## Session registry (lib.rs) -/

/-- `SessionRuntime` (lib.rs:161): the stored directory, the optional live
bridge (embedded as an instance number drawn from a counter) and the
optional terminal id. -/
structure SessionRuntime where
  project_dir : String
  codex : Option Nat
  terminal_id : Option String
deriving DecidableEq, Repr

/-- The `SESSION_MANAGER` table plus the counter that numbers bridge
instances (each `CodexBridge::new` + `start` names a fresh instance). -/
structure Registry where
  sessions : SMap SessionRuntime
  nextBridge : Nat

/-- An externally observable effect of `start_codex`: stopping a previous
bridge (kill + wait) or spawning a child process for a new one. -/
inductive StartEffect where
  | stoppedBridge (bid : Nat)
  | spawned (bid : Nat)
deriving DecidableEq, Repr

/-- `start_codex` (lib.rs:226) after directory resolution: fetch or create
the session entry, detect the idempotent case (live bridge and unchanged
resolved directory), update the stored directory unconditionally, and
otherwise stop any previous bridge and start exactly one fresh one
(spawn modelled as succeeding).  Returns the successor registry and the
effects in order. -/
def start_codex (reg : Registry) (session_id resolved_dir : String) :
    Registry × List StartEffect :=
  let entry := (reg.sessions session_id).getD ⟨resolved_dir, none, none⟩
  let entry1 := { entry with project_dir := resolved_dir }
  if entry.codex.isSome ∧ entry.project_dir = resolved_dir then
    ({ reg with sessions := reg.sessions.insert session_id entry1 }, [])
  else
    let stops := match entry1.codex with
      | some bid => [StartEffect.stoppedBridge bid]
      | none => []
    let bid := reg.nextBridge
    ({ sessions := reg.sessions.insert session_id { entry1 with codex := some bid },
       nextBridge := bid + 1 },
     stops ++ [StartEffect.spawned bid])

/-- The whole-application state touched by `stop_codex`: the global
`MODEL_HANDLERS` registry (name and running flag per handler, in
registration order) and the session table. -/
structure AppState where
  handlers : List (String × Bool)
  sessions : SMap SessionRuntime

/-- An externally observable effect of `stop_codex`. -/
inductive StopEffect where
  | handlerStopped (name : String)
  | terminalClosed (tid : String)
  | bridgeStopped (bid : Nat)
deriving DecidableEq, Repr

/-- `stop_codex` (lib.rs:383): stop every handler in the global model
handler registry, then — only when the session id is known — close its
terminal and stop its bridge, keeping the session entry in place.
Always returns `Ok(())`. -/
def stop_codex (st : AppState) (session_id : String) :
    AppState × List StopEffect × Except String Unit :=
  let handlerEffects := st.handlers.map (fun h => StopEffect.handlerStopped h.1)
  let handlers1 := st.handlers.map (fun h => (h.1, false))
  match st.sessions session_id with
  | none => (⟨handlers1, st.sessions⟩, handlerEffects, .ok ())
  | some rt =>
      let termEffects := match rt.terminal_id with
        | some tid => [StopEffect.terminalClosed tid]
        | none => []
      let bridgeEffects := match rt.codex with
        | some bid => [StopEffect.bridgeStopped bid]
        | none => []
      (⟨handlers1,
        st.sessions.insert session_id { rt with terminal_id := none, codex := none }⟩,
       handlerEffects ++ termEffects ++ bridgeEffects, .ok ())

/-- `get_session_project_dir` (lib.rs:180): the stored directory for a
known session, otherwise the process current working directory (`cwd`,
whose lookup is modelled as succeeding). -/
def get_session_project_dir (sessions : SMap SessionRuntime) (cwd : String)
    (session_id : String) : Option String :=
  match sessions session_id with
  | some rt => some rt.project_dir
  | none => some cwd

/-! ## Checkpoints (checkpoint.rs) -/

/-- Embedding of `str::trim`: drop whitespace from both ends (executable
on the character list, unlike the builtin iterator-based trim). -/
def strTrim (s : String) : String :=
  ⟨((s.data.dropWhile Char.isWhitespace).reverse.dropWhile
      Char.isWhitespace).reverse⟩

/-- `project_root_for` (checkpoint.rs:30): take the session directory,
falling back to the current working directory when it is absent or
blank. -/
def project_root_for (sessions : SMap SessionRuntime) (cwd : String)
    (session_id : String) : Except String String :=
  match get_session_project_dir sessions cwd session_id with
  | some dir => if strTrim dir = "" then .ok cwd else .ok (strTrim dir)
  | none => .ok cwd

/-- Path join on the string representation of directories. -/
def strJoin (a b : String) : String := a ++ "/" ++ b

/-- `checkpoints_dir` (checkpoint.rs:46): the fixed
`.conductor/hartford/.checkpoints` directory below the project root. -/
def checkpoints_dir (sessions : SMap SessionRuntime) (cwd : String)
    (session_id : String) : Except String String :=
  (project_root_for sessions cwd session_id).map
    (fun base => strJoin (strJoin (strJoin base ".conductor") "hartford") ".checkpoints")

/-- `checkpoint_dir` (checkpoint.rs:63): the directory of one checkpoint
(`ensure_checkpoints_dir` creates the parent; creation is modelled as
succeeding). -/
def checkpoint_dir_for (sessions : SMap SessionRuntime) (cwd : String)
    (session_id checkpoint_id : String) : Except String String :=
  (checkpoints_dir sessions cwd session_id).map (fun d => strJoin d checkpoint_id)

/-- `FileSnapshot` (checkpoint.rs:10). -/
structure FileSnapshot where
  path : FPath
  original_content : String
  current_content : String
  checksum : Option String
deriving DecidableEq, Repr

/-- Association-list insert with replacement: `HashMap::insert` on the
path-to-index mapping, keeping first-insertion order. -/
def alInsert {β : Type} : List (FPath × β) → FPath → β → List (FPath × β)
  | [], k, v => [(k, v)]
  | (k0, v0) :: rest, k, v =>
      if k0 = k then (k0, v) :: rest
      else (k0, v0) :: alInsert rest k v

/-- The `file_mapping.json` contents built by `save_checkpoint_files`
(checkpoint.rs:132): collecting `(path, index)` over the enumerated
snapshots into a map, a later duplicate path overwriting an earlier
index. -/
def mappingFrom (files : List FileSnapshot) : List (FPath × Nat) :=
  (files.enum.map (fun p => (p.2.path, p.1))).foldl
    (fun acc pv => alInsert acc pv.1 pv.2) []

/-- The persisted form of one checkpoint: the indexed `file_<i>.json`
snapshots and the `file_mapping.json` path-to-index map (`metadata.json`
and the `content_<i>.txt` copies are not read back by restore and are
modelled separately for retention). -/
structure StoredCheckpoint where
  snapshots : List FileSnapshot
  mapping : List (FPath × Nat)
deriving Repr

/-- `save_checkpoint_files` (checkpoint.rs:82), restricted to the data that
restore reads back: the snapshot files in index order plus the path
mapping. -/
def save_checkpoint_files (files : List FileSnapshot) : StoredCheckpoint :=
  { snapshots := files, mapping := mappingFrom files }

/-- `resolve_target_path` (checkpoint.rs:67): re-root an absolute path at
the base when possible (falling back to its file name), and join a
relative path onto the base. -/
def resolve_target_path (base : FPath) (file_path : FPath) : FPath :=
  if file_path.absolute then
    match file_path.stripPre base with
    | some p => base.join p
    | none =>
        match file_path.fileName with
        | some name => base.join ⟨false, [name]⟩
        | none => base
  else base.join file_path

/-- `fs::write` on the modelled disk. -/
def diskWrite (disk : FPath → Option String) (p : FPath) (content : String) :
    FPath → Option String :=
  fun q => if q = p then some content else disk q

/-- The per-entry loop of `restore_checkpoint_with_mode`
(checkpoint.rs:245): read each indexed snapshot, choose `current_content`
in `"current"` mode and `original_content` otherwise, and write it to the
path resolved against the project base. -/
def restore_loop (cp : StoredCheckpoint) (mode : String) (base : FPath) :
    List (FPath × Nat) → (FPath → Option String) →
      Except String (FPath → Option String)
  | [], disk => .ok disk
  | (file_path, index) :: rest, disk =>
      match cp.snapshots.get? index with
      | none => .error ("Failed to read file snapshot: " ++ toString index)
      | some snapshot =>
          let target := resolve_target_path base file_path
          let content :=
            if mode = "current" then snapshot.current_content
            else snapshot.original_content
          restore_loop cp mode base rest (diskWrite disk target content)

/-- `restore_checkpoint_with_mode` (checkpoint.rs:226): iterate the stored
mapping, writing each snapshot's selected content to its resolved
target. -/
def restore_checkpoint_with_mode (cp : StoredCheckpoint) (mode : String)
    (base : FPath) (disk : FPath → Option String) :
    Except String (FPath → Option String) :=
  restore_loop cp mode base cp.mapping disk

/-- The retention core of `clean_old_checkpoints` (checkpoint.rs:429):
sort the discovered `(directory, timestamp)` pairs newest first (stable,
as `sort_by` is) and split into the retained prefix of length
`keep_count` and the deleted remainder. -/
def clean_old_checkpoints_core (checkpoints : List (String × Nat))
    (keep_count : Nat) : List (String × Nat) × List (String × Nat) :=
  let sorted := checkpoints.mergeSort (fun a b => decide (b.2 ≤ a.2))
  (sorted.take keep_count, sorted.drop keep_count)

/-- The `clean_old_checkpoints` command (checkpoint.rs:429) including its
root resolution: a failed directory resolution returns `Ok` with nothing
deleted, otherwise the retention core runs on the checkpoints found in the
resolved directory (`store`).  The deleted directories are returned as
the observable effect. -/
def clean_old_checkpoints_cmd (sessions : SMap SessionRuntime) (cwd : String)
    (session_id : String) (store : String → List (String × Nat))
    (keep_count : Nat) : Except String (List (String × Nat)) :=
  match checkpoints_dir sessions cwd session_id with
  | .error _ => .ok []
  | .ok dir => .ok (clean_old_checkpoints_core (store dir) keep_count).2

/-- The `list_checkpoints` command (checkpoint.rs:469) including its root
resolution: metadata of the checkpoints in the resolved directory, newest
first; a failed resolution returns an empty list. -/
def list_checkpoints_cmd (sessions : SMap SessionRuntime) (cwd : String)
    (session_id : String) (store : String → List (String × Nat)) :
    Except String (List (String × Nat)) :=
  match checkpoints_dir sessions cwd session_id with
  | .error _ => .ok []
  | .ok dir => .ok ((store dir).mergeSort (fun a b => decide (b.2 ≤ a.2)))

/-! ## General helper lemmas -/

theorem SMap.insert_self {α : Type} {m : SMap α} {k : String} {v : α}
    (h : m k = some v) : m.insert k v = m := by
  funext q
  by_cases hq : q = k
  · subst hq; simp [SMap.insert, h]
  · simp [SMap.insert, hq]

theorem digitChar_ne_nl : ∀ n : Nat, Nat.digitChar n ≠ '\n'
  | 0 => by decide
  | 1 => by decide
  | 2 => by decide
  | 3 => by decide
  | 4 => by decide
  | 5 => by decide
  | 6 => by decide
  | 7 => by decide
  | 8 => by decide
  | 9 => by decide
  | 10 => by decide
  | 11 => by decide
  | 12 => by decide
  | 13 => by decide
  | 14 => by decide
  | 15 => by decide
  | (n + 16) => by
      unfold Nat.digitChar
      repeat rw [if_neg (by omega)]
      decide

theorem nlFree_append {a b : String} (ha : nlFree a) (hb : nlFree b) :
    nlFree (a ++ b) := by
  simp only [nlFree, String.data_append, List.mem_append] at *
  exact fun h => h.elim ha hb

theorem nlFree_singleton {c : Char} (h : c ≠ '\n') :
    nlFree (String.singleton c) := by
  have hd : (String.singleton c).data = [c] := rfl
  simp only [nlFree, hd, List.mem_singleton]
  exact fun hc => h hc.symm

theorem nlFree_escChar (c : Char) : nlFree (escChar c) := by
  by_cases h1 : c = '"'
  · subst h1; decide
  by_cases h2 : c = '\\'
  · subst h2; decide
  by_cases h3 : c = '\n'
  · subst h3; decide
  by_cases h4 : c = '\r'
  · subst h4; decide
  by_cases h5 : c = '\t'
  · subst h5; decide
  unfold escChar
  rw [if_neg h1, if_neg h2, if_neg h3, if_neg h4, if_neg h5]
  by_cases h6 : c.toNat < 32
  · rw [if_pos h6]
    exact nlFree_append
      (nlFree_append (by decide) (nlFree_singleton (digitChar_ne_nl _)))
      (nlFree_singleton (digitChar_ne_nl _))
  · rw [if_neg h6]
    exact nlFree_singleton h3

theorem nlFree_escString : ∀ l : List Char, nlFree (escString l)
  | [] => by decide
  | c :: cs => nlFree_append (nlFree_escChar c) (nlFree_escString cs)

theorem nlFree_jsonStr (s : String) : nlFree (jsonStr s) :=
  nlFree_append (nlFree_append (by decide) (nlFree_escString s.toList)) (by decide)

theorem nlFree_joinComma : ∀ l : List String, (∀ x ∈ l, nlFree x) →
    nlFree (joinComma l)
  | [], _ => by decide
  | [x], h => by simpa [joinComma] using h x (by simp)
  | x :: y :: rest, h => by
      rw [joinComma]
      refine nlFree_append (nlFree_append (h x (by simp)) (by decide)) ?_
      exact nlFree_joinComma (y :: rest) (fun z hz => h z (by simp at hz ⊢; tauto))

theorem nlFree_jsonBool (b : Bool) : nlFree (jsonBool b) := by
  cases b <;> decide

theorem nlFree_approvalJson (a : AskForApproval) : nlFree (approvalJson a) := by
  cases a <;> exact nlFree_jsonStr _

theorem nlFree_effortJson (e : Option ReasoningEffort) : nlFree (effortJson e) := by
  rcases e with _ | e
  · decide
  · cases e <;> exact nlFree_jsonStr _

theorem nlFree_summaryJson (s : ReasoningSummary) : nlFree (summaryJson s) := by
  cases s <;> exact nlFree_jsonStr _

theorem nlFree_decisionJson (d : ReviewDecision) : nlFree (decisionJson d) := by
  cases d <;> exact nlFree_jsonStr _

theorem nlFree_itemJson (it : InputItem) : nlFree (itemJson it) := by
  cases it <;>
    exact nlFree_append (nlFree_append (by decide) (nlFree_jsonStr _)) (by decide)

theorem nlFree_sandboxJson (sp : SandboxPolicy) : nlFree (sandboxJson sp) := by
  cases sp with
  | dangerFullAccess => exact nlFree_jsonStr _
  | readOnly => exact nlFree_jsonStr _
  | workspaceWrite roots na et es =>
      rw [sandboxJson]
      repeat' apply nlFree_append
      all_goals first
        | decide
        | exact nlFree_jsonBool _
        | exact nlFree_joinComma _ (fun x hx => by
            simp only [List.mem_map] at hx
            obtain ⟨r, hr, rfl⟩ := hx
            exact nlFree_jsonStr _)

theorem nlFree_opJson (op : Op) : nlFree (opJson op) := by
  cases op with
  | userTurn items cwd ap sp model effort summary =>
      rw [opJson]
      repeat' apply nlFree_append
      all_goals first
        | decide
        | exact nlFree_jsonStr _
        | exact nlFree_escString _
        | exact nlFree_approvalJson _
        | exact nlFree_sandboxJson _
        | exact nlFree_effortJson _
        | exact nlFree_summaryJson _
        | exact nlFree_joinComma _ (fun x hx => by
            simp only [List.mem_map] at hx
            obtain ⟨it, hit, rfl⟩ := hx
            exact nlFree_itemJson it)
  | execApproval id decision =>
      rw [opJson]
      repeat' apply nlFree_append
      all_goals first
        | decide
        | exact nlFree_jsonStr _
        | exact nlFree_escString _
        | exact nlFree_decisionJson _
  | patchApproval id decision =>
      rw [opJson]
      repeat' apply nlFree_append
      all_goals first
        | decide
        | exact nlFree_jsonStr _
        | exact nlFree_escString _
        | exact nlFree_decisionJson _
  | interrupt => exact nlFree_jsonStr _

theorem nlFree_serializeSubmission (s : Submission) :
    nlFree (serializeSubmission s) := by
  rw [serializeSubmission]
  repeat' apply nlFree_append
  all_goals first
    | decide
    | exact nlFree_jsonStr _
    | exact nlFree_escString _
    | exact nlFree_opJson _

/-! ## Claim theorems -/

/-- C5: for every token-count-update event with usage info and a reported
context window, the emitted telemetry has effective window equal to the
window minus the 12000-token baseline floored at zero, used tokens equal
to (total minus reasoning, minus baseline) clamped to the effective
window, remaining equal to their difference, and percentages present
exactly when the effective window is nonzero; on the concrete example
window 20000, total 15000, reasoning 1000 the derived figures are 8000,
2000, 6000, 25 percent used and 75 percent remaining. -/
theorem token_telemetry :
    (∀ (u : TokenUsage) (window : Nat),
      ∃ t : TokenTelemetry,
        emit_token_stats ⟨some ⟨u, some window⟩⟩ = some t ∧
        t.contextEffective = some (window - BASELINE_TOKENS) ∧
        t.contextUsedTokens = some (min
          (u.total_tokens - u.reasoning_output_tokens - BASELINE_TOKENS)
          (window - BASELINE_TOKENS)) ∧
        t.contextRemainingTokens = some ((window - BASELINE_TOKENS) - min
          (u.total_tokens - u.reasoning_output_tokens - BASELINE_TOKENS)
          (window - BASELINE_TOKENS)) ∧
        (t.contextUsedPct.isSome ↔ window - BASELINE_TOKENS ≠ 0) ∧
        (t.contextRemainingPct.isSome ↔ window - BASELINE_TOKENS ≠ 0)) ∧
    compute_context_usage ⟨0, 0, 0, 1000, 15000⟩ 20000 =
      (some 8000, some 2000, some 6000, some 25, some 75) := by
  constructor
  · intro u window
    refine ⟨_, rfl, ?_⟩
    show (compute_context_usage u window).1 = _ ∧
      (compute_context_usage u window).2.1 = _ ∧
      (compute_context_usage u window).2.2.1 = _ ∧
      ((compute_context_usage u window).2.2.2.1.isSome ↔ _) ∧
      ((compute_context_usage u window).2.2.2.2.isSome ↔ _)
    by_cases hw : window ≤ BASELINE_TOKENS
    · have h0 : window - BASELINE_TOKENS = 0 := Nat.sub_eq_zero_of_le hw
      simp [compute_context_usage, hw, h0]
    · have h0 : window - BASELINE_TOKENS ≠ 0 := by omega
      simp [compute_context_usage, hw, h0]
  · show (if (20000 : Nat) ≤ BASELINE_TOKENS then _ else _) = _
    norm_num [compute_context_usage, BASELINE_TOKENS]

/-- C10: `stop_codex` stops every handler in the global model-handler
registry regardless of the session it serves, in addition to closing the
named session's terminal and stopping its bridge when that session
exists; with an unknown session id it still stops all handlers, leaves
the session table untouched, and returns success. -/
theorem stop_codex_global_handlers :
    ∀ (st : AppState) (sid : String),
      (stop_codex st sid).2.2 = .ok () ∧
      (∀ h ∈ st.handlers, StopEffect.handlerStopped h.1 ∈ (stop_codex st sid).2.1) ∧
      (stop_codex st sid).1.handlers = st.handlers.map (fun h => (h.1, false)) ∧
      (st.sessions sid = none →
        (stop_codex st sid).1.sessions = st.sessions ∧
        (stop_codex st sid).2.1 =
          st.handlers.map (fun h => StopEffect.handlerStopped h.1)) ∧
      (∀ rt, st.sessions sid = some rt →
        (∀ tid, rt.terminal_id = some tid →
          StopEffect.terminalClosed tid ∈ (stop_codex st sid).2.1) ∧
        (∀ bid, rt.codex = some bid →
          StopEffect.bridgeStopped bid ∈ (stop_codex st sid).2.1)) := by
  intro st sid
  cases hs : st.sessions sid with
  | none =>
      simp only [stop_codex, hs]
      refine ⟨by trivial, ?_, by trivial, fun _ => ⟨by trivial, by trivial⟩, ?_⟩
      · intro h hmem
        exact List.mem_map_of_mem _ hmem
      · intro rt hrt
        exact absurd hrt (by simp)
  | some rt =>
      simp only [stop_codex, hs]
      refine ⟨by trivial, ?_, by trivial, ?_, ?_⟩
      · intro h hmem
        exact List.mem_append_left _ (List.mem_append_left _
          (List.mem_map_of_mem _ hmem))
      · intro hnone
        exact absurd hnone (by simp)
      · intro rt2 hrt2
        injection hrt2 with heq
        subst heq
        constructor
        · intro tid htid
          simp [htid, List.mem_append]
        · intro bid hbid
          simp [hbid, List.mem_append]

/-- C10 witness: the theorem applied to a concrete application state
holding one running handler and one live session. -/
theorem stop_codex_global_handlers_witness :
    (∀ h ∈ [("codex", true)], StopEffect.handlerStopped h.1 ∈
      (stop_codex ⟨[("codex", true)],
        SMap.empty.insert "s1" ⟨"/p", some 7, some "t1"⟩⟩ "s1").2.1) ∧
    (∀ rt, (SMap.empty.insert "s1"
        (⟨"/p", some 7, some "t1"⟩ : SessionRuntime)) "s1" = some rt →
      (∀ tid, rt.terminal_id = some tid →
        StopEffect.terminalClosed tid ∈
          (stop_codex ⟨[("codex", true)],
            SMap.empty.insert "s1" ⟨"/p", some 7, some "t1"⟩⟩ "s1").2.1) ∧
      (∀ bid, rt.codex = some bid →
        StopEffect.bridgeStopped bid ∈
          (stop_codex ⟨[("codex", true)],
            SMap.empty.insert "s1" ⟨"/p", some 7, some "t1"⟩⟩ "s1").2.1)) := by
  have h := stop_codex_global_handlers
    ⟨[("codex", true)], SMap.empty.insert "s1" ⟨"/p", some 7, some "t1"⟩⟩ "s1"
  exact ⟨h.2.1, h.2.2.2.2⟩

/-- C9: a checkpoint operation invoked with a session id absent from the
session registry resolves its project root to the process current working
directory and proceeds; no unknown-session error is produced by the root
resolution shared by save, restore, list and clean, and the clean / list
commands complete with `Ok` against the cwd-based checkpoints
directory. -/
theorem unknown_session_cwd_fallback :
    ∀ (sessions : SMap SessionRuntime) (cwd sid : String)
      (store : String → List (String × Nat)) (keep : Nat),
      sessions sid = none → strTrim cwd = cwd →
      project_root_for sessions cwd sid = .ok cwd ∧
      checkpoints_dir sessions cwd sid = .ok
        (strJoin (strJoin (strJoin cwd ".conductor") "hartford") ".checkpoints") ∧
      (∀ cid, checkpoint_dir_for sessions cwd sid cid = .ok
        (strJoin (strJoin (strJoin (strJoin cwd ".conductor") "hartford")
          ".checkpoints") cid)) ∧
      clean_old_checkpoints_cmd sessions cwd sid store keep = .ok
        (clean_old_checkpoints_core
          (store (strJoin (strJoin (strJoin cwd ".conductor") "hartford")
            ".checkpoints")) keep).2 ∧
      list_checkpoints_cmd sessions cwd sid store = .ok
        ((store (strJoin (strJoin (strJoin cwd ".conductor") "hartford")
          ".checkpoints")).mergeSort (fun a b => decide (b.2 ≤ a.2))) := by
  intro sessions cwd sid store keep hnone htrim
  have hroot : project_root_for sessions cwd sid = .ok cwd := by
    unfold project_root_for get_session_project_dir
    rw [hnone]
    by_cases he : strTrim cwd = ""
    · simp [he]
    · simp [he, htrim]
  have hdir : checkpoints_dir sessions cwd sid = .ok
      (strJoin (strJoin (strJoin cwd ".conductor") "hartford") ".checkpoints") := by
    unfold checkpoints_dir
    rw [hroot]
    rfl
  refine ⟨hroot, hdir, ?_, ?_, ?_⟩
  · intro cid
    unfold checkpoint_dir_for
    rw [hdir]
    rfl
  · unfold clean_old_checkpoints_cmd
    rw [hdir]
  · unfold list_checkpoints_cmd
    rw [hdir]

/-- C9 witness: the theorem applied to the empty registry and a concrete
working directory, session id and store. -/
theorem unknown_session_cwd_fallback_witness :
    (SMap.empty : SMap SessionRuntime) "ghost" = none ∧
    strTrim "/work" = "/work" ∧
    project_root_for SMap.empty "/work" "ghost" = .ok "/work" := by
  refine ⟨rfl, by decide, ?_⟩
  exact (unknown_session_cwd_fallback SMap.empty "/work" "ghost"
    (fun _ => []) 0 rfl (by decide)).1

/-- C3: pending permission requests are single-use.  With a matching
pending entry and a held stdin handle, the first `resolve_permission`
succeeds and removes exactly that entry (all other bridge state is
unchanged); a second call with the same id returns the unknown-id error
and the returned state is exactly the state it was given. -/
theorem permission_single_use :
    ∀ (b : BridgeState) (gen gen2 : Nat → String) (ctr ctr2 : Nat)
      (rid : String) (allow allow2 : Bool) (scope scope2 : String)
      (ctx : PermissionContext),
      b.shared.pending_permissions rid = some ctx →
      b.stdinOpen = true →
      (∃ ops, (resolve_permission b gen ctr rid allow scope).2 = .ok ops) ∧
      (resolve_permission b gen ctr rid allow scope).1.shared.pending_permissions rid
        = none ∧
      (∀ q, q ≠ rid →
        (resolve_permission b gen ctr rid allow scope).1.shared.pending_permissions q
          = b.shared.pending_permissions q) ∧
      (resolve_permission b gen ctr rid allow scope).1.shared.reasoning_buffers
        = b.shared.reasoning_buffers ∧
      (resolve_permission b gen ctr rid allow scope).1.shared.pending_edits
        = b.shared.pending_edits ∧
      (resolve_permission b gen ctr rid allow scope).1.shared.session_model
        = b.shared.session_model ∧
      (resolve_permission b gen ctr rid allow scope).1.stdinOpen = b.stdinOpen ∧
      (resolve_permission b gen ctr rid allow scope).1.projectDir = b.projectDir ∧
      resolve_permission (resolve_permission b gen ctr rid allow scope).1
          gen2 ctr2 rid allow2 scope2 =
        ((resolve_permission b gen ctr rid allow scope).1,
         .error ("Unknown permission id: " ++ rid)) := by
  intro b gen gen2 ctr ctr2 rid allow allow2 scope scope2 ctx hctx hstdin
  have hok : ∀ (b1 : BridgeState) (sub : Submission), b1.stdinOpen = true →
      ∃ ops, (write_submission b1 sub).2 = .ok ops := by
    intro b1 sub h
    unfold write_submission
    rw [h]
    exact ⟨_, rfl⟩
  have hfirst : (resolve_permission b gen ctr rid allow scope).1 =
      { b with shared := { b.shared with pending_permissions :=
          b.shared.pending_permissions.remove rid } } := by
    unfold resolve_permission
    rw [hctx]
    unfold write_submission
    rw [hstdin]
    simp
  have hremoved : (resolve_permission b gen ctr rid allow scope).1.shared.pending_permissions rid
      = none := by
    rw [hfirst]
    exact SMap.remove_same _ _
  have hsecond : ∀ s1 : BridgeState, s1.shared.pending_permissions rid = none →
      resolve_permission s1 gen2 ctr2 rid allow2 scope2 =
        (s1, .error ("Unknown permission id: " ++ rid)) := by
    intro s1 h1
    unfold resolve_permission
    rw [h1]
  refine ⟨?_, hremoved, ?_, ?_, ?_, ?_, ?_, ?_, hsecond _ hremoved⟩
  · show ∃ ops, (resolve_permission b gen ctr rid allow scope).2 = .ok ops
    unfold resolve_permission
    rw [hctx]
    exact hok _ _ hstdin
  · intro q hq
    rw [hfirst]
    exact SMap.remove_ne _ hq
  · rw [hfirst]
  · rw [hfirst]
  · rw [hfirst]
  · rw [hfirst]
  · rw [hfirst]

/-- C3 witness: the theorem applied to a bridge holding one pending exec
permission. -/
theorem permission_single_use_witness :
    ((⟨true, ⟨true, ["p"]⟩,
        ⟨none, SMap.empty, SMap.empty.insert "exec:s:c" ⟨"s", .exec⟩,
         SMap.empty⟩⟩ : BridgeState)).shared.pending_permissions "exec:s:c"
      = some ⟨"s", .exec⟩ ∧
    (∃ ops, (resolve_permission
      ⟨true, ⟨true, ["p"]⟩,
       ⟨none, SMap.empty, SMap.empty.insert "exec:s:c" ⟨"s", .exec⟩, SMap.empty⟩⟩
      (fun _ => "u") 0 "exec:s:c" true "once").2 = .ok ops) := by
  have h := permission_single_use
    ⟨true, ⟨true, ["p"]⟩,
     ⟨none, SMap.empty, SMap.empty.insert "exec:s:c" ⟨"s", .exec⟩, SMap.empty⟩⟩
    (fun _ => "u") (fun _ => "u") 0 0 "exec:s:c" true true "once" "once"
    ⟨"s", .exec⟩ (by rfl) rfl
  exact ⟨by rfl, h.1⟩

/-- C8 counterexample: the claim that a successful send flushes the stdin
handle is false — on a running bridge the operation trace of
`write_submission` is exactly a payload write followed by a newline
write, with no flush operation. -/
theorem submission_write_flush_counterexample :
    (write_submission
        ⟨true, ⟨true, ["p"]⟩, ⟨none, SMap.empty, SMap.empty, SMap.empty⟩⟩
        ⟨"s1", .interrupt⟩).2 =
      .ok [.write (serializeSubmission ⟨"s1", .interrupt⟩), .write "\n"] ∧
    StdinOp.flush ∉
      [StdinOp.write (serializeSubmission ⟨"s1", .interrupt⟩),
       StdinOp.write "\n"] := by
  constructor
  · rfl
  · decide

/-- C8 (amended): for every send of a user-turn submission while the
bridge is running, the bridge serializes the submission to one line of
JSON (no raw newline in the payload) and writes it followed by a single
trailing newline to the child's stdin; no flush operation is performed on
the handle (the source writes the payload and the newline byte and
returns, its "flush" error message notwithstanding). -/
theorem submission_write_no_flush :
    ∀ (b : BridgeState) (items : List InputItem) (cwd : FPath)
      (ap : AskForApproval) (sp : SandboxPolicy) (model : String)
      (effort : Option ReasoningEffort) (summary : ReasoningSummary)
      (sid : String),
      b.stdinOpen = true →
      (write_submission b ⟨sid, .userTurn items cwd ap sp model effort summary⟩).1
        = b ∧
      (write_submission b ⟨sid, .userTurn items cwd ap sp model effort summary⟩).2
        = .ok [.write (serializeSubmission
            ⟨sid, .userTurn items cwd ap sp model effort summary⟩),
           .write "\n"] ∧
      nlFree (serializeSubmission
        ⟨sid, .userTurn items cwd ap sp model effort summary⟩) ∧
      StdinOp.flush ∉
        [StdinOp.write (serializeSubmission
          ⟨sid, .userTurn items cwd ap sp model effort summary⟩),
         StdinOp.write "\n"] := by
  intro b items cwd ap sp model effort summary sid hstdin
  refine ⟨?_, ?_, nlFree_serializeSubmission _, by simp⟩
  · unfold write_submission
    rw [hstdin]
    simp
  · unfold write_submission
    rw [hstdin]
    simp

/-- C8 witness: the amended theorem applied to a concrete running bridge
and a concrete user-turn submission. -/
theorem submission_write_no_flush_witness :
    ((⟨true, ⟨true, ["p"]⟩,
        ⟨none, SMap.empty, SMap.empty, SMap.empty⟩⟩ : BridgeState)).stdinOpen
      = true ∧
    (write_submission
        ⟨true, ⟨true, ["p"]⟩, ⟨none, SMap.empty, SMap.empty, SMap.empty⟩⟩
        ⟨"sub", .userTurn [.text "hello"] ⟨true, ["p"]⟩ .onRequest .readOnly
          "gpt-5.1-mini" none .auto⟩).2 =
      .ok [.write (serializeSubmission
          ⟨"sub", .userTurn [.text "hello"] ⟨true, ["p"]⟩ .onRequest .readOnly
            "gpt-5.1-mini" none .auto⟩),
         .write "\n"] := by
  refine ⟨rfl, ?_⟩
  exact (submission_write_no_flush
    ⟨true, ⟨true, ["p"]⟩, ⟨none, SMap.empty, SMap.empty, SMap.empty⟩⟩
    [.text "hello"] ⟨true, ["p"]⟩ .onRequest .readOnly "gpt-5.1-mini" none .auto
    "sub" rfl).2.1

theorem start_codex_post (reg : Registry) (sid d : String) :
    ∃ rt, (start_codex reg sid d).1.sessions sid = some rt ∧
      rt.project_dir = d ∧ rt.codex.isSome = true := by
  unfold start_codex
  by_cases hc : ((reg.sessions sid).getD ⟨d, none, none⟩).codex.isSome = true ∧
      ((reg.sessions sid).getD ⟨d, none, none⟩).project_dir = d
  · rw [if_pos hc]
    exact ⟨_, SMap.insert_same _ _ _, rfl, hc.1⟩
  · rw [if_neg hc]
    exact ⟨_, SMap.insert_same _ _ _, rfl, rfl⟩

/-- C4: starting a session twice in a row with the identical resolved
directory while the bridge is live performs zero additional spawns (the
repeated call is a no-op returning the registry unchanged), while a
subsequent start with a different resolved directory stops the stored
bridge, spawns exactly one new one, and updates the stored directory. -/
theorem start_codex_idempotent_restart :
    ∀ (reg : Registry) (sid d d2 : String),
      (∀ rt, reg.sessions sid = some rt → rt.codex.isSome = true →
        rt.project_dir = d → start_codex reg sid d = (reg, [])) ∧
      (start_codex (start_codex reg sid d).1 sid d).2 = [] ∧
      (d2 ≠ d → ∀ rt, (start_codex reg sid d).1.sessions sid = some rt →
        ∃ bOld, rt.codex = some bOld ∧
          (start_codex (start_codex reg sid d).1 sid d2).2 =
            [.stoppedBridge bOld,
             .spawned (start_codex reg sid d).1.nextBridge] ∧
          ∃ rt2, (start_codex (start_codex reg sid d).1 sid d2).1.sessions sid
              = some rt2 ∧ rt2.project_dir = d2 ∧
            rt2.codex = some (start_codex reg sid d).1.nextBridge) := by
  have noop : ∀ (reg : Registry) (sid d : String) (rt : SessionRuntime),
      reg.sessions sid = some rt → rt.codex.isSome = true →
      rt.project_dir = d → start_codex reg sid d = (reg, []) := by
    intro reg sid d rt hrt hlive hdir
    unfold start_codex
    rw [hrt]
    simp only [Option.getD_some]
    rw [if_pos ⟨hlive, hdir⟩]
    have hrt2 : { rt with project_dir := d } = rt := by
      cases rt
      simp_all
    rw [hrt2, SMap.insert_self hrt]
  intro reg sid d d2
  have hrestart : ∀ (reg1 : Registry) (rt : SessionRuntime) (bOld : Nat),
      reg1.sessions sid = some rt → rt.codex = some bOld → rt.project_dir = d →
      d2 ≠ d →
      (start_codex reg1 sid d2).2 =
        [.stoppedBridge bOld, .spawned reg1.nextBridge] ∧
      ∃ rt2, (start_codex reg1 sid d2).1.sessions sid = some rt2 ∧
        rt2.project_dir = d2 ∧ rt2.codex = some reg1.nextBridge := by
    intro reg1 rt bOld h1 h2 h3 hne
    unfold start_codex
    rw [h1]
    simp only [Option.getD_some]
    rw [if_neg (by
      intro hcond
      exact hne (by rw [hcond.2] at h3; exact h3.symm ▸ rfl))]
    rw [h2]
    exact ⟨rfl, _, SMap.insert_same _ _ _, rfl, rfl⟩
  obtain ⟨rt1, hrt1, hdir1, hlive1⟩ := start_codex_post reg sid d
  refine ⟨noop reg sid d, ?_, ?_⟩
  · rw [noop _ sid d rt1 hrt1 hlive1 hdir1]
  · intro hne rt hrt
    have hrteq : rt = rt1 := by rw [hrt1] at hrt; injection hrt with h; exact h.symm
    subst hrteq
    obtain ⟨bOld, hbOld⟩ := Option.isSome_iff_exists.mp hlive1
    obtain ⟨heff, hstate⟩ := hrestart _ rt bOld hrt1 hbOld hdir1 hne
    exact ⟨bOld, hbOld, heff, hstate⟩

/-- C4 witness: the theorem applied to a registry with one live session at
directory `/a`, repeated at `/a` and then restarted at `/b`. -/
theorem start_codex_idempotent_restart_witness :
    start_codex ⟨SMap.empty.insert "s" ⟨"/a", some 3, none⟩, 4⟩ "s" "/a" =
      (⟨SMap.empty.insert "s" ⟨"/a", some 3, none⟩, 4⟩, []) ∧
    (start_codex
      (start_codex ⟨SMap.empty.insert "s" ⟨"/a", some 3, none⟩, 4⟩ "s" "/a").1
      "s" "/a").2 = [] ∧
    (∃ bOld, (⟨"/a", some 3, none⟩ : SessionRuntime).codex = some bOld ∧
      (start_codex
        (start_codex ⟨SMap.empty.insert "s" ⟨"/a", some 3, none⟩, 4⟩ "s" "/a").1
        "s" "/b").2 =
        [.stoppedBridge bOld,
         .spawned (start_codex ⟨SMap.empty.insert "s" ⟨"/a", some 3, none⟩, 4⟩
            "s" "/a").1.nextBridge] ∧
      ∃ rt2, (start_codex
          (start_codex ⟨SMap.empty.insert "s" ⟨"/a", some 3, none⟩, 4⟩ "s" "/a").1
          "s" "/b").1.sessions "s" = some rt2 ∧ rt2.project_dir = "/b" ∧
        rt2.codex = some (start_codex
          ⟨SMap.empty.insert "s" ⟨"/a", some 3, none⟩, 4⟩ "s" "/a").1.nextBridge) := by
  have h := start_codex_idempotent_restart
    ⟨SMap.empty.insert "s" ⟨"/a", some 3, none⟩, 4⟩ "s" "/a" "/b"
  refine ⟨h.1 ⟨"/a", some 3, none⟩ (by rfl) rfl rfl, h.2.1, ?_⟩
  exact h.2.2 (by decide) ⟨"/a", some 3, none⟩ (by rfl)

theorem accumTexts_eq : ∀ (l : List (String × Bool)) (b : String),
    accumTexts b l = b ++ concatTexts l
  | [], b => by
      rw [accumTexts, concatTexts, String.append_empty]
  | c :: rest, b => by
      rw [accumTexts, concatTexts, accumTexts_eq rest, String.append_assoc]

theorem runReasoningChunks_go (id : String) :
    ∀ (chunks : List (String × Bool)) (shared : SharedState) (b : String) (k : Nat),
      shared.reasoning_buffers id = some ⟨b, k⟩ →
      (∀ i c, chunks.get? i = some c → c.2 = true → i + 1 = chunks.length) →
      k + chunks.length < u32Mod →
      (runReasoningChunks shared id chunks).2.length = chunks.length ∧
      (∀ i c, chunks.get? i = some c →
        (runReasoningChunks shared id chunks).2.get? i =
          some ⟨id ++ "::" ++ toString (k + i + 1), id, k + i + 1, c.1,
                accumTexts b (chunks.take (i + 1)), c.2⟩) ∧
      ((runReasoningChunks shared id chunks).1.reasoning_buffers id = none ↔
        ∃ c, chunks.getLast? = some c ∧ c.2 = true) := by
  intro chunks
  induction chunks with
  | nil =>
      intro shared b k hbuf hdone hlt
      refine ⟨rfl, ?_, ?_⟩
      · intro i c hc
        simp at hc
      · rw [runReasoningChunks]
        simp [hbuf]
  | cons hd rest ih =>
      intro shared b k hbuf hdone hlt
      obtain ⟨c, d⟩ := hd
      have hmod : (k + 1) % u32Mod = k + 1 := by
        apply Nat.mod_eq_of_lt
        simp only [List.length_cons] at hlt
        omega
      have hstep : emit_reasoning_chunk shared id c d =
          ({ shared with reasoning_buffers :=
              if d then shared.reasoning_buffers.remove id
              else shared.reasoning_buffers.insert id ⟨b ++ c, k + 1⟩ },
           ⟨id ++ "::" ++ toString (k + 1), id, k + 1, c, b ++ c, d⟩) := by
        unfold emit_reasoning_chunk
        rw [hbuf]
        simp only [Option.getD_some]
        rw [hmod]
      cases d with
      | true =>
          have hrest : rest = [] := by
            have h0 := hdone 0 (c, true) rfl rfl
            simp only [List.length_cons] at h0
            exact List.length_eq_zero.mp (by omega)
          subst hrest
          rw [runReasoningChunks, hstep]
          refine ⟨rfl, ?_, ?_⟩
          · intro i c2 hc2
            match i, hc2 with
            | 0, hc2 =>
                injection hc2 with h
                subst h
                rfl
            | n + 1, hc2 => simp at hc2
          · rw [runReasoningChunks]
            simp
      | false =>
          have hbuf2 : (SharedState.mk shared.session_model
              (shared.reasoning_buffers.insert id ⟨b ++ c, k + 1⟩)
              shared.pending_permissions shared.pending_edits).reasoning_buffers id
              = some ⟨b ++ c, k + 1⟩ := SMap.insert_same _ _ _
          have hdone2 : ∀ i c2, rest.get? i = some c2 → c2.2 = true →
              i + 1 = rest.length := by
            intro i c2 hc2 hd2
            have := hdone (i + 1) c2 (by simpa using hc2) hd2
            simp only [List.length_cons] at this
            omega
          have hlt2 : (k + 1) + rest.length < u32Mod := by
            simp only [List.length_cons] at hlt
            omega
          obtain ⟨ihlen, ihget, ihend⟩ := ih _ (b ++ c) (k + 1) hbuf2 hdone2 hlt2
          rw [runReasoningChunks, hstep]
          refine ⟨?_, ?_, ?_⟩
          · simpa using ihlen
          · intro i c2 hc2
            match i, hc2 with
            | 0, hc2 =>
                injection hc2 with h
                subst h
                rfl
            | n + 1, hc2 =>
                have := ihget n c2 (by simpa using hc2)
                have harith : k + 1 + n + 1 = k + (n + 1) + 1 := by omega
                rw [harith] at this
                simpa using this
          · cases rest with
            | nil =>
                rw [runReasoningChunks]
                simp only [List.getLast?_singleton]
                constructor
                · intro h
                  simp [SMap.insert] at h
                · rintro ⟨c2, hc2, hd2⟩
                  injection hc2 with h
                  subst h
                  exact absurd hd2 (by simp)
            | cons e tail =>
                rw [List.getLast?_cons_cons]
                exact ihend

/-- C2: for a submission id with a freshly registered accumulation entry,
processing a stream of reasoning chunks in which only the final chunk may
be completion-flagged emits one `thinking` notification per chunk whose
sequence numbers are exactly 1, 2, 3, ... (strictly increasing from 1),
whose cumulative text is the concatenation of all chunk texts emitted so
far, and the accumulation entry is removed from the map exactly when a
completion-flagged chunk is emitted (a section-break arrives as an
ordinary append of two newline characters with the done flag false). -/
theorem reasoning_chunk_stream :
    ∀ (shared : SharedState) (id : String) (chunks : List (String × Bool)),
      shared.reasoning_buffers id = some ⟨"", 0⟩ →
      (∀ i c, chunks.get? i = some c → c.2 = true → i + 1 = chunks.length) →
      chunks.length < u32Mod →
      (runReasoningChunks shared id chunks).2.length = chunks.length ∧
      (∀ i c, chunks.get? i = some c →
        (runReasoningChunks shared id chunks).2.get? i =
          some ⟨id ++ "::" ++ toString (i + 1), id, i + 1, c.1,
                concatTexts (chunks.take (i + 1)), c.2⟩) ∧
      ((runReasoningChunks shared id chunks).1.reasoning_buffers id = none ↔
        ∃ c, chunks.getLast? = some c ∧ c.2 = true) ∧
      (∀ (s : SharedState) (c : String) (d : Bool),
        (emit_reasoning_chunk s id c d).1.reasoning_buffers id = none ↔
          d = true) := by
  intro shared id chunks hbuf hdone hlt
  obtain ⟨hlen, hget, hend⟩ :=
    runReasoningChunks_go id chunks shared "" 0 hbuf hdone (by simpa using hlt)
  refine ⟨hlen, ?_, hend, ?_⟩
  · intro i c hc
    have := hget i c hc
    rw [accumTexts_eq, String.empty_append] at this
    simpa using this
  · intro s c d
    unfold emit_reasoning_chunk
    cases d with
    | true => simp
    | false => simp

/-- C2 witness: the theorem applied to a two-chunk stream whose second
chunk is completion-flagged. -/
theorem reasoning_chunk_stream_witness :
    ((⟨none, SMap.empty.insert "s" ⟨"", 0⟩, SMap.empty,
        SMap.empty⟩ : SharedState)).reasoning_buffers "s" = some ⟨"", 0⟩ ∧
    (runReasoningChunks
      ⟨none, SMap.empty.insert "s" ⟨"", 0⟩, SMap.empty, SMap.empty⟩ "s"
      [("a", false), ("b", true)]).2.length = 2 ∧
    ((runReasoningChunks
      ⟨none, SMap.empty.insert "s" ⟨"", 0⟩, SMap.empty, SMap.empty⟩ "s"
      [("a", false), ("b", true)]).1.reasoning_buffers "s" = none ↔
      ∃ c, ([("a", false), ("b", true)] : List (String × Bool)).getLast? = some c ∧
        c.2 = true) := by
  have h := reasoning_chunk_stream
    ⟨none, SMap.empty.insert "s" ⟨"", 0⟩, SMap.empty, SMap.empty⟩ "s"
    [("a", false), ("b", true)]
    (by rfl)
    (by
      intro i c hc hd
      match i, hc with
      | 0, hc =>
          injection hc with h
          subst h
          exact absurd hd (by decide)
      | 1, hc => rfl
      | n + 2, hc => simp at hc)
    (by decide)
  exact ⟨by rfl, h.1, h.2.2.1⟩

theorem strAppend_left_cancel {p a b : String} (h : p ++ a = p ++ b) : a = b := by
  have hd := congrArg String.data h
  rw [String.data_append, String.data_append] at hd
  exact String.ext (List.append_cancel_left hd)

theorem patchEditLoop_len :
    ∀ (changes : List (FPath × FileChange)) (pd : FPath) (gen : Nat → String)
      (ctr : Nat),
      (patchEditLoop pd gen changes ctr).1.length = changes.length ∧
      (patchEditLoop pd gen changes ctr).2.1.length = changes.length
  | [], _, _, _ => ⟨rfl, rfl⟩
  | _ :: rest, pd, gen, ctr => by
      obtain ⟨h1, h2⟩ := patchEditLoop_len rest pd gen (ctr + 1)
      rw [patchEditLoop]
      exact ⟨by simpa using h1, by simpa using h2⟩

theorem patchEditLoop_ids_eq :
    ∀ (changes : List (FPath × FileChange)) (pd : FPath) (gen : Nat → String)
      (ctr : Nat),
      (patchEditLoop pd gen changes ctr).1 =
        (List.range changes.length).map (fun i => "edit-" ++ gen (ctr + i))
  | [], _, _, _ => rfl
  | ch :: rest, pd, gen, ctr => by
      rw [patchEditLoop]
      simp only [List.length_cons, List.range_succ_eq_map, List.map_cons,
        List.map_map]
      refine congrArg₂ _ rfl ?_
      rw [patchEditLoop_ids_eq rest pd gen (ctr + 1)]
      refine List.map_congr_left ?_
      intro i _
      have : ctr + 1 + i = ctr + (i + 1) := by omega
      simp [Function.comp, this]

theorem patchEditLoop_notifs_get :
    ∀ (changes : List (FPath × FileChange)) (pd : FPath) (gen : Nat → String)
      (ctr i : Nat) (e : String),
      (patchEditLoop pd gen changes ctr).1.get? i = some e →
      ∃ f bf af, (patchEditLoop pd gen changes ctr).2.1.get? i =
        some (.editProposed e f bf af)
  | [], pd, gen, ctr, i, e => by
      intro h
      simp [patchEditLoop] at h
  | ch :: rest, pd, gen, ctr, i, e => by
      intro h
      rw [patchEditLoop] at h ⊢
      match i, h with
      | 0, h =>
          injection h with h
          subst h
          exact ⟨_, _, _, rfl⟩
      | n + 1, h =>
          exact patchEditLoop_notifs_get rest pd gen (ctr + 1) n e h

theorem patchEditLoop_nodup (pd : FPath) (gen : Nat → String)
    (hgen : Function.Injective gen) (changes : List (FPath × FileChange))
    (ctr : Nat) : (patchEditLoop pd gen changes ctr).1.Nodup := by
  rw [patchEditLoop_ids_eq]
  refine (List.nodup_range changes.length).map ?_
  intro a b hab
  have := hgen (strAppend_left_cancel hab)
  omega

/-- C1: a patch approval request carrying N changed files emits exactly N
`edit:proposed` notifications (one per changed file, with pairwise
distinct freshly generated edit ids) followed by the single
`permission:request` notification; the edit ids are remembered under the
call id, and a subsequent patch-apply-end for that call id emits exactly
one `edit:applied` (success) or `edit:rejected` (failure) notification
per remembered id — the same N ids — and clears the remembered entry. -/
theorem patch_edit_fanout :
    ∀ (shared : SharedState) (pd : FPath) (sid : String)
      (req : ApplyPatchApprovalReq) (gen : Nat → String) (ctr : Nat)
      (success : Bool),
      Function.Injective gen →
      (emit_patch_permission shared pd sid req gen ctr).2.1.length
        = req.changes.length + 1 ∧
      (patchEditLoop pd gen req.changes ctr).1.length = req.changes.length ∧
      (∀ i e, (patchEditLoop pd gen req.changes ctr).1.get? i = some e →
        (emit_patch_permission shared pd sid req gen ctr).2.1.get? i =
          (patchEditLoop pd gen req.changes ctr).2.1.get? i ∧
        ∃ f bf af, (emit_patch_permission shared pd sid req gen ctr).2.1.get? i
          = some (.editProposed e f bf af)) ∧
      (emit_patch_permission shared pd sid req gen ctr).2.1.get?
          req.changes.length =
        some (.permissionRequest ("patch:" ++ sid ++ ":" ++ req.call_id)
          ["write"] (req.changes.map (fun pc => format_path pc.1 pd)) req.reason
          (req.grant_root.map (fun p => format_path p pd))) ∧
      (patchEditLoop pd gen req.changes ctr).1.Nodup ∧
      (emit_patch_permission shared pd sid req gen ctr).1.pending_edits
          req.call_id = some (patchEditLoop pd gen req.changes ctr).1 ∧
      (handle_patch_apply_end (emit_patch_permission shared pd sid req gen ctr).1
          ⟨req.call_id, success⟩).2 =
        (patchEditLoop pd gen req.changes ctr).1.map
          (fun e => if success then Notif.editApplied e
                    else Notif.editRejected e) ∧
      (handle_patch_apply_end (emit_patch_permission shared pd sid req gen ctr).1
          ⟨req.call_id, success⟩).1.pending_edits req.call_id = none := by
  intro shared pd sid req gen ctr success hgen
  obtain ⟨hidlen, hnotiflen⟩ := patchEditLoop_len req.changes pd gen ctr
  have hemit : (emit_patch_permission shared pd sid req gen ctr).2.1 =
      (patchEditLoop pd gen req.changes ctr).2.1 ++
        [.permissionRequest ("patch:" ++ sid ++ ":" ++ req.call_id) ["write"]
          (req.changes.map (fun pc => format_path pc.1 pd)) req.reason
          (req.grant_root.map (fun p => format_path p pd))] := rfl
  have hstate : (emit_patch_permission shared pd sid req gen ctr).1.pending_edits
      = shared.pending_edits.insert req.call_id
          (patchEditLoop pd gen req.changes ctr).1 := rfl
  refine ⟨?_, hidlen, ?_, ?_, patchEditLoop_nodup pd gen hgen req.changes ctr,
    ?_, ?_, ?_⟩
  · rw [hemit]
    simp [hnotiflen]
  · intro i e hie
    have hi : i < (patchEditLoop pd gen req.changes ctr).2.1.length := by
      rw [hnotiflen, ← hidlen]
      exact List.get?_eq_some.mp hie |>.1
    constructor
    · rw [hemit]
      exact List.get?_append hi
    · rw [hemit, List.get?_append hi]
      exact patchEditLoop_notifs_get req.changes pd gen ctr i e hie
  · rw [hemit, ← hnotiflen]
    exact List.get?_concat_length _ _
  · rw [hstate]
    exact SMap.insert_same _ _ _
  · unfold handle_patch_apply_end
    rw [hstate]
    simp [SMap.insert_same]
  · unfold handle_patch_apply_end
    simp [SMap.remove_same]

/-- C1 witness: the theorem applied to a concrete two-file patch approval
request with an injective id generator, for the success flag. -/
theorem patch_edit_fanout_witness :
    Function.Injective (fun n => String.mk (List.replicate n 'x')) ∧
    (emit_patch_permission ⟨none, SMap.empty, SMap.empty, SMap.empty⟩
      ⟨true, ["home"]⟩ "sub"
      ⟨"call", [(⟨true, ["home", "a.txt"]⟩, .add "hello"),
                (⟨false, ["b.txt"]⟩, .delete "bye")], some "why", none⟩
      (fun n => String.mk (List.replicate n 'x')) 0).2.1.length = 3 ∧
    (handle_patch_apply_end
      (emit_patch_permission ⟨none, SMap.empty, SMap.empty, SMap.empty⟩
        ⟨true, ["home"]⟩ "sub"
        ⟨"call", [(⟨true, ["home", "a.txt"]⟩, .add "hello"),
                  (⟨false, ["b.txt"]⟩, .delete "bye")], some "why", none⟩
        (fun n => String.mk (List.replicate n 'x')) 0).1
      ⟨"call", true⟩).2 =
      (patchEditLoop ⟨true, ["home"]⟩ (fun n => String.mk (List.replicate n 'x'))
        [(⟨true, ["home", "a.txt"]⟩, .add "hello"),
         (⟨false, ["b.txt"]⟩, .delete "bye")] 0).1.map
        (fun e => if true then Notif.editApplied e else Notif.editRejected e) := by
  have hinj : Function.Injective (fun n => String.mk (List.replicate n 'x')) := by
    intro a b hab
    have := congrArg (fun s => s.data.length) hab
    simpa using this
  have h := patch_edit_fanout ⟨none, SMap.empty, SMap.empty, SMap.empty⟩
    ⟨true, ["home"]⟩ "sub"
    ⟨"call", [(⟨true, ["home", "a.txt"]⟩, .add "hello"),
              (⟨false, ["b.txt"]⟩, .delete "bye")], some "why", none⟩
    (fun n => String.mk (List.replicate n 'x')) 0 true hinj
  exact ⟨hinj, h.1, h.2.2.2.2.2.2.1⟩

/-- C7: `clean_old_checkpoints` with `keep_count = k` retains exactly the
k most recent checkpoints and deletes the rest: retained and deleted
partition the discovered checkpoints, exactly `min k n` are retained,
every retained timestamp is at least every deleted one (strictly greater
when timestamps are distinct), `k = 0` retains nothing and `k ≥ n`
deletes nothing. -/
theorem checkpoint_retention :
    ∀ (cps : List (String × Nat)) (k : Nat),
      ((clean_old_checkpoints_core cps k).1 ++
        (clean_old_checkpoints_core cps k).2).Perm cps ∧
      (clean_old_checkpoints_core cps k).1.length = min k cps.length ∧
      (clean_old_checkpoints_core cps k).2.length = cps.length - k ∧
      (∀ r ∈ (clean_old_checkpoints_core cps k).1,
        ∀ d ∈ (clean_old_checkpoints_core cps k).2, d.2 ≤ r.2) ∧
      (k = 0 → (clean_old_checkpoints_core cps k).1 = []) ∧
      (cps.length ≤ k → (clean_old_checkpoints_core cps k).2 = []) ∧
      ((cps.map Prod.snd).Nodup →
        ∀ r ∈ (clean_old_checkpoints_core cps k).1,
        ∀ d ∈ (clean_old_checkpoints_core cps k).2, d.2 < r.2) := by
  intro cps k
  have hperm : (cps.mergeSort (fun a b => decide (b.2 ≤ a.2))).Perm cps :=
    List.mergeSort_perm cps _
  have hlen : (cps.mergeSort (fun a b => decide (b.2 ≤ a.2))).length
      = cps.length := List.length_mergeSort cps
  have hsorted : (cps.mergeSort (fun a b => decide (b.2 ≤ a.2))).Pairwise
      (fun a b => decide (b.2 ≤ a.2)) := by
    refine List.sorted_mergeSort ?_ ?_ cps
    · intro a b c h1 h2
      simp only [decide_eq_true_eq] at h1 h2 ⊢
      omega
    · intro a b
      simp only [Bool.or_eq_true, decide_eq_true_eq]
      omega
  have hsplit : (cps.mergeSort (fun a b => decide (b.2 ≤ a.2))).take k ++
      (cps.mergeSort (fun a b => decide (b.2 ≤ a.2))).drop k =
      cps.mergeSort (fun a b => decide (b.2 ≤ a.2)) :=
    List.take_append_drop k _
  have hcross : ∀ r ∈ (cps.mergeSort (fun a b => decide (b.2 ≤ a.2))).take k,
      ∀ d ∈ (cps.mergeSort (fun a b => decide (b.2 ≤ a.2))).drop k,
      d.2 ≤ r.2 := by
    rw [← hsplit] at hsorted
    have := (List.pairwise_append.mp hsorted).2.2
    intro r hr d hd
    simpa using this r hr d hd
  refine ⟨?_, ?_, ?_, hcross, ?_, ?_, ?_⟩
  · show ((cps.mergeSort _).take k ++ (cps.mergeSort _).drop k).Perm cps
    rw [hsplit]
    exact hperm
  · show ((cps.mergeSort _).take k).length = _
    rw [List.length_take, hlen]
  · show ((cps.mergeSort _).drop k).length = _
    rw [List.length_drop, hlen]
  · intro hk
    show (cps.mergeSort _).take k = []
    rw [hk]
    exact List.take_zero _
  · intro hge
    show (cps.mergeSort _).drop k = []
    exact List.drop_eq_nil_of_le (by rw [hlen]; exact hge)
  · intro hnd r hr d hd
    have hle := hcross r hr d hd
    have hnd2 : ((cps.mergeSort (fun a b => decide (b.2 ≤ a.2))).map
        Prod.snd).Nodup :=
      ((hperm.map Prod.snd).nodup_iff).mpr hnd
    rw [← hsplit, List.map_append] at hnd2
    have hdisj := List.disjoint_of_nodup_append hnd2
    have hne : r.2 ≠ d.2 := by
      intro heq
      exact hdisj (List.mem_map_of_mem Prod.snd hr)
        (heq ▸ List.mem_map_of_mem Prod.snd hd)
    omega

/-- C7 witness: the theorem applied to four concrete checkpoints with
distinct timestamps, keeping two. -/
theorem checkpoint_retention_witness :
    (([("a", 5), ("b", 9), ("c", 1), ("d", 7)].map Prod.snd).Nodup →
      ∀ r ∈ (clean_old_checkpoints_core
        [("a", 5), ("b", 9), ("c", 1), ("d", 7)] 2).1,
      ∀ d ∈ (clean_old_checkpoints_core
        [("a", 5), ("b", 9), ("c", 1), ("d", 7)] 2).2, d.2 < r.2) ∧
    (clean_old_checkpoints_core
      [("a", 5), ("b", 9), ("c", 1), ("d", 7)] 2).1.length = 2 := by
  have h := checkpoint_retention [("a", 5), ("b", 9), ("c", 1), ("d", 7)] 2
  exact ⟨h.2.2.2.2.2.2, h.2.1⟩

theorem alInsert_not_mem {β : Type} :
    ∀ (l : List (FPath × β)) (k : FPath) (v : β),
      k ∉ l.map Prod.fst → alInsert l k v = l ++ [(k, v)]
  | [], _, _, _ => rfl
  | (k0, v0) :: rest, k, v, h => by
      have hne : k0 ≠ k := by
        intro heq
        exact h (by simp [heq])
      rw [alInsert, if_neg hne, alInsert_not_mem rest k v (by
        intro hmem
        exact h (by simp [hmem]))]
      rfl

theorem foldl_alInsert_nodup {β : Type} :
    ∀ (l acc : List (FPath × β)),
      ((acc ++ l).map Prod.fst).Nodup →
      l.foldl (fun a pv => alInsert a pv.1 pv.2) acc = acc ++ l
  | [], acc, _ => by simp
  | (k, v) :: rest, acc, h => by
      have hk : k ∉ acc.map Prod.fst := by
        rw [List.map_append] at h
        have hdisj := List.disjoint_of_nodup_append h
        intro hmem
        exact hdisj hmem (by simp)
      have hassoc : (acc ++ [(k, v)]) ++ rest = acc ++ (k, v) :: rest := by
        rw [List.append_assoc]
        rfl
      rw [List.foldl_cons]
      show List.foldl _ (alInsert acc k v) rest = _
      rw [alInsert_not_mem acc k v hk,
        foldl_alInsert_nodup rest (acc ++ [(k, v)]) (by rw [hassoc]; exact h),
        hassoc]

theorem mappingFrom_nodup (files : List FileSnapshot)
    (h : (files.map (fun f => f.path)).Nodup) :
    mappingFrom files = files.enum.map (fun p => (p.2.path, p.1)) := by
  unfold mappingFrom
  refine foldl_alInsert_nodup _ [] ?_
  rw [List.nil_append, List.map_map]
  have : (Prod.fst ∘ fun p : Nat × FileSnapshot => (p.2.path, p.1)) =
      (fun f : FileSnapshot => f.path) ∘ Prod.snd := rfl
  rw [this, ← List.map_map, List.enum_map_snd]
  exact h

theorem mapping_entry_snapshot (files : List FileSnapshot) :
    ∀ p i, (p, i) ∈ files.enum.map (fun q => (q.2.path, q.1)) →
      ∃ f, files.get? i = some f ∧ f.path = p := by
  intro p i hmem
  rw [List.mem_map] at hmem
  obtain ⟨⟨j, f⟩, hjf, heq⟩ := hmem
  injection heq with h1 h2
  subst h2
  exact ⟨f, List.mem_enum_iff_get?.mp hjf, h1⟩

theorem restore_loop_frame (cp : StoredCheckpoint) (mode : String)
    (base : FPath) :
    ∀ (entries : List (FPath × Nat)) (disk disk2 : FPath → Option String),
      restore_loop cp mode base entries disk = .ok disk2 →
      ∀ q, q ∉ entries.map (fun e => resolve_target_path base e.1) →
        disk2 q = disk q
  | [], disk, disk2, hrun, q, _ => by
      rw [restore_loop] at hrun
      injection hrun with h
      rw [← h]
  | (p, i) :: rest, disk, disk2, hrun, q, hq => by
      rw [restore_loop] at hrun
      cases hsnap : cp.snapshots.get? i with
      | none => rw [hsnap] at hrun; exact absurd hrun (by simp)
      | some snap =>
          rw [hsnap] at hrun
          have hq1 : q ≠ resolve_target_path base p := by
            intro heq
            exact hq (by simp [heq])
          have hq2 : q ∉ rest.map (fun e => resolve_target_path base e.1) := by
            intro hmem
            exact hq (by simp [hmem])
          rw [restore_loop_frame cp mode base rest _ disk2 hrun q hq2,
            diskWrite, if_neg hq1]

theorem restore_loop_ok (cp : StoredCheckpoint) (mode : String) (base : FPath) :
    ∀ (entries : List (FPath × Nat)) (disk : FPath → Option String),
      (∀ e ∈ entries, ∃ snap, cp.snapshots.get? e.2 = some snap) →
      (entries.map (fun e => resolve_target_path base e.1)).Nodup →
      ∃ disk2, restore_loop cp mode base entries disk = .ok disk2 ∧
        ∀ p i snap, (p, i) ∈ entries → cp.snapshots.get? i = some snap →
          disk2 (resolve_target_path base p) =
            some (if mode = "current" then snap.current_content
                  else snap.original_content)
  | [], disk, _, _ => by
      refine ⟨disk, rfl, ?_⟩
      intro p i snap hmem
      simp at hmem
  | (p, i) :: rest, disk, hsnaps, hnd => by
      obtain ⟨snap, hsnap⟩ := hsnaps (p, i) (by simp)
      have hnd2 := hnd
      rw [List.map_cons, List.nodup_cons] at hnd2
      obtain ⟨hnotin, hndrest⟩ := hnd2
      obtain ⟨disk2, hrun, hvals⟩ := restore_loop_ok cp mode base rest
        (diskWrite disk (resolve_target_path base p)
          (if mode = "current" then snap.current_content
           else snap.original_content))
        (fun e he => hsnaps e (by simp [he])) hndrest
      refine ⟨disk2, ?_, ?_⟩
      · rw [restore_loop, hsnap]
        exact hrun
      · intro p2 i2 snap2 hmem hsnap2
        rcases List.mem_cons.mp hmem with hhead | hrest
        · injection hhead with h1 h2
          subst h1
          subst h2
          have hsame : snap2 = snap := by
            rw [hsnap] at hsnap2
            injection hsnap2 with h
            exact h.symm
          subst hsame
          rw [restore_loop_frame cp mode base rest _ disk2 hrun _ hnotin,
            diskWrite, if_pos rfl]
        · exact hvals p2 i2 snap2 hrest hsnap2

/-- C6: restoring a checkpoint saved from N file snapshots (with pairwise
distinct paths and resolved targets) writes back, for every snapshot,
exactly its `original_content` when the mode is anything other than
`"current"` (in particular `"original"`), and its `current_content` in
`"current"` mode, to its path resolved against the project root —
independent of the starting disk contents, so unaffected by intervening
modification. -/
theorem checkpoint_restore_modes :
    ∀ (files : List FileSnapshot) (mode : String) (base : FPath)
      (disk : FPath → Option String),
      (files.map (fun f => f.path)).Nodup →
      (files.map (fun f => resolve_target_path base f.path)).Nodup →
      ∃ disk2, restore_checkpoint_with_mode (save_checkpoint_files files) mode
          base disk = .ok disk2 ∧
        ∀ f ∈ files, disk2 (resolve_target_path base f.path) =
          some (if mode = "current" then f.current_content
                else f.original_content) := by
  intro files mode basep disk hpaths htargets
  have hmap : (save_checkpoint_files files).mapping =
      files.enum.map (fun p => (p.2.path, p.1)) := mappingFrom_nodup files hpaths
  have hsnaps : ∀ e ∈ files.enum.map (fun q => (q.2.path, q.1)),
      ∃ snap, (save_checkpoint_files files).snapshots.get? e.2 = some snap := by
    intro e he
    obtain ⟨f, hf, _⟩ := mapping_entry_snapshot files e.1 e.2 (by
      cases e
      exact he)
    exact ⟨f, hf⟩
  have htargets2 : ((files.enum.map (fun q => (q.2.path, q.1))).map
      (fun e => resolve_target_path basep e.1)).Nodup := by
    rw [List.map_map]
    have : ((fun e : FPath × Nat => resolve_target_path basep e.1) ∘
        fun q : Nat × FileSnapshot => (q.2.path, q.1)) =
        (fun f : FileSnapshot => resolve_target_path basep f.path) ∘ Prod.snd :=
      rfl
    rw [this, ← List.map_map, List.enum_map_snd]
    exact htargets
  obtain ⟨disk2, hrun, hvals⟩ := restore_loop_ok (save_checkpoint_files files)
    mode basep (files.enum.map (fun q => (q.2.path, q.1))) disk hsnaps htargets2
  refine ⟨disk2, ?_, ?_⟩
  · unfold restore_checkpoint_with_mode
    rw [hmap]
    exact hrun
  · intro f hf
    obtain ⟨n, hn⟩ := List.get?_of_mem hf
    have hmem : (f.path, n) ∈ files.enum.map (fun q => (q.2.path, q.1)) := by
      rw [List.mem_map]
      exact ⟨(n, f), List.mem_enum_iff_get?.mpr hn, rfl⟩
    exact hvals f.path n f hmem hn

/-- C6 witness: the theorem applied in `"original"` mode to a two-file
checkpoint over an arbitrary starting disk state. -/
theorem checkpoint_restore_modes_witness :
    (([⟨⟨false, ["a"]⟩, "orig-a", "cur-a", none⟩,
       ⟨⟨false, ["b"]⟩, "orig-b", "cur-b", none⟩] : List FileSnapshot).map
        (fun f => f.path)).Nodup ∧
    ∃ disk2, restore_checkpoint_with_mode
        (save_checkpoint_files
          [⟨⟨false, ["a"]⟩, "orig-a", "cur-a", none⟩,
           ⟨⟨false, ["b"]⟩, "orig-b", "cur-b", none⟩]) "original"
        ⟨true, ["root"]⟩ (fun _ => some "stale") = .ok disk2 ∧
      ∀ f ∈ ([⟨⟨false, ["a"]⟩, "orig-a", "cur-a", none⟩,
              ⟨⟨false, ["b"]⟩, "orig-b", "cur-b", none⟩] : List FileSnapshot),
        disk2 (resolve_target_path ⟨true, ["root"]⟩ f.path) =
          some (if "original" = "current" then f.current_content
                else f.original_content) := by
  refine ⟨by decide, ?_⟩
  exact checkpoint_restore_modes
    [⟨⟨false, ["a"]⟩, "orig-a", "cur-a", none⟩,
     ⟨⟨false, ["b"]⟩, "orig-b", "cur-b", none⟩] "original" ⟨true, ["root"]⟩
    (fun _ => some "stale") (by decide) (by decide)

end Banshee
